import Mathlib

/-!
Verification of the `poetry-templating` engine
(`src/poetry_templating/engine.py`, `src/poetry_templating/util.py`).

Strings are modelled as `List Char`.  Python regular expressions used by the
engine are fixed literals, so each one is embedded as a hand-written matcher
with the exact semantics of the pattern (greedy repetition, anchoring,
backtracking) on newline-free lines.  Machine-level aspects that the claims do
not depend on (unicode digit classes in `int()`, unicode whitespace in `\s`,
symlink resolution in `os.path.realpath`) are modelled on their ASCII /
already-normalised fragment, as noted at each definition.

Python's unbounded recursion is modelled with an explicit fuel parameter:
exhausting the fuel corresponds to the interpreter raising `RecursionError`
(which `EvaluationContext._evaluate_slot` wraps into an `EvaluationError`).
-/

namespace PoetryTemplating

/-- Apostrophe character (written by code point to keep source layout plain). -/
def chQuote : Char := Char.ofNat 39

/-- Double-quote character. -/
def chDquote : Char := Char.ofNat 34

/-- Left curly brace character. -/
def chLb : Char := Char.ofNat 123

/-- Right curly brace character. -/
def chRb : Char := Char.ofNat 125

/-- Dollar character. -/
def chDollar : Char := Char.ofNat 36

/-- Hash character. -/
def chHash : Char := Char.ofNat 35

/-- Newline character. -/
def chNl : Char := Char.ofNat 10

/-- Forward slash character. -/
def chSlash : Char := Char.ofNat 47

/-- Dot character. -/
def chDot : Char := Char.ofNat 46

/-- Characters matched by the regex class `\s` (ASCII fragment: space, tab,
newline, carriage return, vertical tab, form feed).  Python also matches some
unicode whitespace, which no input in this development contains. -/
def isPySpace (c : Char) : Bool :=
  c = ' ' || c = Char.ofNat 9 || c = Char.ofNat 10 || c = Char.ofNat 13 ||
    c = Char.ofNat 11 || c = Char.ofNat 12

/-- Lowercase a string, as `str.lower` does on ASCII text. -/
def lowerL (l : List Char) : List Char := l.map Char.toLower

/-- Drop the longest run of `\s` characters from the front (models a greedy
`\s*` followed by a non-space literal, and `str.lstrip`). -/
def dropPySpaces (l : List Char) : List Char := l.dropWhile isPySpace

/-- Python's `str.strip()` (whitespace on both ends). -/
def stripPySpaces (l : List Char) : List Char :=
  ((l.dropWhile isPySpace).reverse.dropWhile isPySpace).reverse

/-- Python's `str.strip("/")`: remove slashes from both ends, as
`matches_any` does to each pattern. -/
def stripSlashes (l : List Char) : List Char :=
  ((l.dropWhile (· = chSlash)).reverse.dropWhile (· = chSlash)).reverse

/-!  ## Path / glob utility (`util.py`: `matches_any`, `relative`)  -/

/-- Glob match of one path component against one pattern component, as
`fnmatch.translate` compiles it: `*` matches any run of characters, `?`
matches one character, anything else is a literal.  (Character classes `[...]`
appear in no pattern in this development.)  Structural recursion on the
pattern makes the function kernel-reducible. -/
def fnm : List Char → List Char → Bool
  | s, [] => s.isEmpty
  | s, c :: pr =>
    if c = '*' then
      (List.range (s.length + 1)).any fun k => fnm (s.drop k) pr
    else
      match s with
      | [] => false
      | a :: srest => (c = '?' || a = c) && fnm srest pr

/-- Split a path string into `pathlib` components: split on `/`, dropping
empty components and single-dot components, exactly as `PurePosixPath`
normalises a path. -/
def parseParts (s : List Char) : List (List Char) :=
  (s.splitOn chSlash).filter fun p => !p.isEmpty && p ≠ [chDot]

/-- The semantics of `PurePath.match` with a relative pattern: the pattern's
components are matched, right-aligned, against the trailing components of the
path; an empty pattern never matches (pathlib raises `ValueError` there, which
no configuration in scope triggers). -/
def pathMatch (parts patParts : List (List Char)) : Bool :=
  !patParts.isEmpty && decide (patParts.length ≤ parts.length) &&
    (List.zip parts.reverse patParts.reverse).all fun ab => fnm ab.1 ab.2

/-- One pattern of `matches_any` applied to an already-relative path:
`Path(Path(path).as_posix().lower()).match(p.lower().strip("/"))`. -/
def patMatches (path pat : List Char) : Bool :=
  pathMatch (parseParts (lowerL path)) (parseParts (stripSlashes (lowerL pat)))

/-- Embedding of `util.matches_any`. -/
def matchesAny (path : List Char) (patterns : List (List Char)) : Bool :=
  patterns.any fun p => patMatches path p

/-- Fold path components, dropping empty and single-dot components and letting
a double-dot pop its parent, as the lexical part of `os.path.realpath` does. -/
def normParts : List (List Char) → List (List Char) → List (List Char)
  | acc, [] => acc.reverse
  | acc, p :: rest =>
    if p.isEmpty || p = [chDot] then normParts acc rest
    else if p = [chDot, chDot] then
      match acc with
      | _ :: t => normParts t rest
      | [] => normParts acc rest
    else normParts (p :: acc) rest

/-- Lexical path normalisation: collapse duplicate slashes, resolve `.` and
`..` components, drop a trailing slash.  This models `os.path.realpath` for
symlink-free trees (the current-directory anchoring of relative paths is not
modelled: relative paths stay relative) and the normalisation the OS itself
performs when `os.path.isfile` / `open` resolve a path. -/
def normalizePath (l : List Char) : List Char :=
  let parts := normParts [] (l.splitOn chSlash)
  if l.head? = some chSlash then chSlash :: List.intercalate [chSlash] parts
  else List.intercalate [chSlash] parts

/-- Embedding of `util.relative`: the path is `os.path.realpath`-normalised
(see `normalizePath`), and `Path.relative_to` returns the suffix after the
root when the path lies under the root, the path itself otherwise (`.` when
they are equal). -/
def relativeToRoot (path root : List Char) : List Char :=
  let p := normalizePath path
  if p = root then [chDot]
  else if (root ++ [chSlash]).isPrefixOf p then p.drop (root.length + 1)
  else p

/-!  ## Structured-document traversal (`util.py`: `traverse`)  -/

/-- A Python value tree as found in parsed `pyproject.toml` data: strings,
integers, booleans, lists and string-keyed dictionaries. -/
inductive Value where
  | str : List Char → Value
  | intV : Int → Value
  | boolV : Bool → Value
  | list : List Value → Value
  | dict : List (List Char × Value) → Value

/-- Association lookup with decidable key equality (`step in current` /
`current[step]` on a dict). -/
def findAssocV : List (List Char × Value) → List Char → Option Value
  | [], _ => none
  | (k, v) :: rest, key => if k = key then some v else findAssocV rest key

/-- Validates `digit (digit | _ digit)*` after the first digit: tail of
Python's integer-literal grammar where single underscores may separate
digits. -/
def pyDigitsTail : List Char → Bool
  | [] => true
  | '_' :: c :: rest => c.isDigit && pyDigitsTail rest
  | c :: rest => c.isDigit && pyDigitsTail rest

/-- Validates a full digit group `digit (digit | _ digit)*`. -/
def pyDigitsOk : List Char → Bool
  | [] => false
  | c :: rest => c.isDigit && pyDigitsTail rest

/-- Numeric value of a digit string, underscores removed. -/
def natOfDigits (l : List Char) : Nat :=
  (l.filter (· ≠ '_')).foldl (fun a c => a * 10 + (c.toNat - 48)) 0

/-- Embedding of Python's `int(step)` on ASCII text: surrounding whitespace is
stripped, an optional single sign precedes the digits, digits may be grouped
with single underscores.  (Unicode digits, accepted by CPython, occur in no
input here.)  `none` models `ValueError`. -/
def pyInt (s : List Char) : Option Int :=
  match stripPySpaces s with
  | '-' :: ds => if pyDigitsOk ds then some (-(natOfDigits ds : Int)) else none
  | '+' :: ds => if pyDigitsOk ds then some ((natOfDigits ds : Int)) else none
  | ds => if pyDigitsOk ds then some ((natOfDigits ds : Int)) else none

/-- Errors escaping `util.traverse`.  In the source all five are ordinary
Python exceptions: `keyNotFound` is the raised `KeyError`, `invalidIndex` the
raised `ValueError` for a non-numeric index, `indexOutOfRange` the raised
`IndexError` for an index `>= len`, `pyIndexError` the `IndexError` raised by
`current[index]` itself when a negative index reaches below `-len`, and
`notTraversable` the raised `ValueError` for a non-container node. -/
inductive TravErr where
  | keyNotFound : TravErr
  | invalidIndex : TravErr
  | indexOutOfRange : TravErr
  | pyIndexError : TravErr
  | notTraversable : TravErr
deriving DecidableEq

/-- Python list indexing `current[index]`: non-negative indices are positions,
negative indices count from the end, out-of-range raises `IndexError`
(modelled by `none`). -/
def pyGet (l : List Value) (i : Int) : Option Value :=
  if 0 ≤ i then l.get? i.toNat
  else if 0 ≤ i + l.length then l.get? (i + l.length).toNat
  else none

/-- Embedding of `util.traverse` on an already-split path (the string form
splits on `.` first, see `traverseStr`). -/
def traverse : Value → List (List Char) → Except TravErr Value
  | v, [] => .ok v
  | .dict d, step :: rest =>
    match findAssocV d step with
    | none => .error .keyNotFound
    | some v' => traverse v' rest
  | .list l, step :: rest =>
    match pyInt step with
    | none => .error .invalidIndex
    | some i =>
      if (l.length : Int) ≤ i then .error .indexOutOfRange
      else
        match pyGet l i with
        | none => .error .pyIndexError
        | some v' => traverse v' rest
  | _, _ :: _ => .error .notTraversable

/-- `util.traverse` with a dotted-string path (`path.split(".")`). -/
def traverseStr (v : Value) (path : List Char) : Except TravErr Value :=
  traverse v (path.splitOn chDot)

/-!  ## Python `str` / `repr` of values

Needed only by the whole-document forms `${pyproject}` and `${env}`; no claim
evaluates them, they are embedded so that every construct handler is total. -/

/-- Python `repr` of a value: strings are quoted (quote-choice and escape
subtleties inside string reprs are irrelevant to every claim), containers are
rendered with Python's separators. -/
def pyReprV : Value → List Char
  | .str s => chQuote :: s ++ [chQuote]
  | .intV n => (toString n).data
  | .boolV b => if b then "True".data else "False".data
  | .list l => '[' :: pyReprVList l ++ [']']
  | .dict d => chLb :: pyReprVDict d ++ [chRb]
where
  /-- Comma-separated reprs of the elements of a list value. -/
  pyReprVList : List Value → List Char
    | [] => []
    | [v] => pyReprV v
    | v :: rest => pyReprV v ++ ", ".data ++ pyReprVList rest
  /-- Comma-separated `key: value` reprs of the items of a dict value. -/
  pyReprVDict : List (List Char × Value) → List Char
    | [] => []
    | [(k, v)] => (chQuote :: k ++ [chQuote]) ++ ": ".data ++ pyReprV v
    | (k, v) :: rest =>
      (chQuote :: k ++ [chQuote]) ++ ": ".data ++ pyReprV v ++ ", ".data ++
        pyReprVDict rest

/-- Python `str` of a value: the string itself for a string, `repr` otherwise,
as `str(result)` behaves in `pyproject_construct`. -/
def pyStr : Value → List Char
  | .str s => s
  | v => pyReprV v

/-!  ## The slot regex `RE_TEMPLATE_SLOT = (?:#\s*)?\$\x7b(.+)\x7d`

`re.sub` scans a line left to right for the leftmost match.  `(.+)` is greedy
and `.` does not match a newline, so inside one line a match runs from the
(optionally `#\s*`-prefixed) first `$`-brace to the last closing brace of the
line, with at least one character between. -/

/-- Split off everything up to and including the last right brace: `some
(content, after)` with `l = content ++ brace ++ after` and no brace in
`after`; `none` when `l` has no right brace. -/
def splitLastBrace : List Char → Option (List Char × List Char)
  | [] => none
  | c :: rest =>
    match splitLastBrace rest with
    | some (content, after) => some (c :: content, after)
    | none => if c = chRb then some ([], rest) else none

/-- The tail `(.+)\x7d` of the slot regex, applied after the opening
`$`-brace: greedy `.+` backtracks to the last right brace and must consume at
least one character. -/
def matchAfterDollar (l : List Char) : Option (List Char × List Char) :=
  match splitLastBrace l with
  | some ([], _) => none
  | some (content, after) => some (content, after)
  | none => none

/-- Anchored match of `RE_TEMPLATE_SLOT` at the head of `l`: `some
(group1, rest-after-match)` if the regex matches here.  The optional prefix
`#\s*` is tried exactly as the engine's regex does: after `#`, the greedy
`\s*` ends at the first non-space, which must start the `$`-brace. -/
def slotMatchAt : List Char → Option (List Char × List Char)
  | [] => none
  | c :: rest =>
    if c = chHash then
      match dropPySpaces rest with
      | d :: e :: l2 => if d = chDollar && e = chLb then matchAfterDollar l2 else none
      | _ => none
    else if c = chDollar then
      match rest with
      | e :: l2 => if e = chLb then matchAfterDollar l2 else none
      | _ => none
    else none

/-!  ## Errors of the evaluation engine

In the source every failure is raised as `error.EvaluationError`; the
constructors below keep the distinct raise sites (and the wrapped foreign
exceptions) apart. -/

/-- Failure outcomes of slot evaluation.  `recursionLimit` models CPython's
`RecursionError` when the interpreter's stack limit is hit (wrapped into an
`EvaluationError` by `_evaluate_slot`); the fuel parameter of the evaluator
plays the role of the remaining stack budget. -/
inductive EvalErr where
  | contextError : EvalErr
  | fileNotFound : EvalErr
  | envMissing : List Char → EvalErr
  | unknownConstruct : EvalErr
  | wrappedTraverse : TravErr → EvalErr
  | recursionLimit : EvalErr
deriving DecidableEq

/-!  ## `re.sub` with an effectful replacement callback

`EvaluationContext.evaluate_string` is `RE_TEMPLATE_SLOT.sub(self._evaluate_slot,
data)`; the callback may raise.  The scan below is the standard left-to-right
non-overlapping substitution; the auxiliary fuel (always called with the
line's length, which bounds the number of scan steps) keeps the recursion
structural and hence kernel-reducible. -/

/-- One `re.sub` scan with `n` steps of budget (`n ≥ l.length` at every call
site, so the `0` case is never reached with a nonempty list). -/
def subSlotsGo (f : List Char → Except EvalErr (List Char)) :
    Nat → List Char → Except EvalErr (List Char)
  | 0, l => .ok l
  | _ + 1, [] => .ok []
  | n + 1, c :: rest =>
    match slotMatchAt (c :: rest) with
    | some (content, after) =>
      (f content).bind fun r => (subSlotsGo f n after).map fun t => r ++ t
    | none => (subSlotsGo f n rest).map fun t => c :: t

/-- `RE_TEMPLATE_SLOT.sub(f, l)` for one newline-free line. -/
def subSlotsE (f : List Char → Except EvalErr (List Char)) (l : List Char) :
    Except EvalErr (List Char) :=
  subSlotsGo f l.length l

/-- Does the string contain the two-character slot opener (dollar followed by
a left brace) anywhere?  This is the spec's "contains the substring
`$`-brace". -/
def hasSlotOpen : List Char → Bool
  | [] => false
  | c :: rest => (c = chDollar && rest.head? = some chLb) || hasSlotOpen rest

/-!  ## Directive regexes -/

/-- Anchored, case-insensitive directive match
`^\s*#\s*templating: WORD\s*$` (`RE_DISABLE` with `off`, `RE_ENABLE` with
`on`). -/
def reDirective (word : List Char) (d : List Char) : Bool :=
  match dropPySpaces d with
  | [] => false
  | c :: rest =>
    if c = chHash then
      let r := lowerL (dropPySpaces rest)
      let key := "templating: ".data ++ word
      key.isPrefixOf r && (r.drop key.length).all isPySpace
    else false

/-- Embedding of `RE_DISABLE.match`. -/
def reDisable (d : List Char) : Bool := reDirective "off".data d

/-- Embedding of `RE_ENABLE.match`. -/
def reEnable (d : List Char) : Bool := reDirective "on".data d

/-- Embedding of `RE_DELETE.search`: the substring `#\s*templating: delete`
(case-insensitive) anywhere in the line. -/
def reDelete : List Char → Bool
  | [] => false
  | c :: rest =>
    (c = chHash && "templating: delete".data.isPrefixOf (lowerL (dropPySpaces rest)))
      || reDelete rest

/-!  ## Engine data and path helpers -/

/-- Embedding of `TemplatingEngine` state.  `fs` is the set of regular files
(path to contents); `os.path.isfile` is `fs` membership, and reading a file
under the configured encoding returns its stored contents.  The `include` and
`exclude` configuration lists keep their meaning under the names
`includePats` / `excludePats` (`include` is a Lean keyword). -/
structure Engine where
  root : List Char
  includePats : List (List Char)
  excludePats : List (List Char)
  pyproject : Value
  envVars : List (List Char × List Char)
  fs : List (List Char × List Char)

/-- Embedding of `TemplatingEngine.should_process`. -/
def shouldProcess (eng : Engine) (path : List Char) : Bool :=
  let rel := relativeToRoot path eng.root
  matchesAny rel eng.includePats && !matchesAny rel eng.excludePats

/-- `os.path.join(a, b)` for POSIX paths: an absolute `b` wins, an empty `a`
contributes nothing, and exactly one separator is inserted otherwise. -/
def joinPath (a b : List Char) : List Char :=
  if b.head? = some chSlash then b
  else if a.isEmpty then b
  else if a.getLast? = some chSlash then a ++ b
  else a ++ chSlash :: b

/-- Characters of a path strictly before its last slash (`none` when the path
has no slash). -/
def beforeLastSlash : List Char → Option (List Char)
  | [] => none
  | c :: rest =>
    match beforeLastSlash rest with
    | some d => some (c :: d)
    | none => if c = chSlash then some [] else none

/-- `os.path.dirname` for POSIX paths: everything up to the last slash, with
trailing slashes stripped from the head unless the head is all slashes. -/
def dirname (l : List Char) : List Char :=
  match beforeLastSlash l with
  | none => []
  | some d =>
    let head := d ++ [chSlash]
    if head.all (· = chSlash) then head
    else (head.reverse.dropWhile (· = chSlash)).reverse

/-- Association lookup on the file system / environment tables. -/
def findAssoc : List (List Char × List Char) → List Char → Option (List Char)
  | [], _ => none
  | (k, v) :: rest, key => if k = key then some v else findAssoc rest key

/-!  ## Construct patterns (`Construct.constructs`, in registration order) -/

/-- Is the character one of the quote characters of the literal construct's
class `["']`? -/
def isQuoteCh (c : Char) : Bool := c = chQuote || c = chDquote

/-- Anchored match of the literal construct's pattern
`^["'](.+)["']$` against a slot's content, returning group 1: any first
character from the class, any last character from the class (the two need not
be the same quote), at least one character between. -/
def literalMatch : List Char → Option (List Char)
  | [] => none
  | q :: rest =>
    match rest.getLast? with
    | none => none
    | some qe =>
      if isQuoteCh q && isQuoteCh qe && !rest.dropLast.isEmpty then
        some rest.dropLast
      else none

/-- Anchored match of the manifest construct's pattern
`^pyproject((?:\.[^.]+)+)?$`: `some none` for the bare keyword, `some (some
p)` when a dotted path follows (returned without its leading dot, as the
handler's `path[1:]` slices it), `none` when the pattern does not match. -/
def pyprojectMatch (c : List Char) : Option (Option (List Char)) :=
  if "pyproject".data.isPrefixOf c then
    match c.drop 9 with
    | [] => some none
    | d :: r =>
      if d = chDot && !r.isEmpty && (r.splitOn chDot).all (fun s => !s.isEmpty) then
        some (some r)
      else none
  else none

/-- Anchored match of the file construct's pattern `^(\.?(?:\/.+)+)$`: after
an optional leading dot, a slash followed by at least one further character
(the greedy inner `.+` then reaches the end of the content). -/
def fileMatch : List Char → Bool
  | [] => false
  | a :: rest =>
    if a = chDot then
      match rest with
      | b :: _ :: _ => b = chSlash
      | _ => false
    else if a = chSlash then !rest.isEmpty
    else false

/-- Anchored match of the environment construct's pattern
`^env(?:\.([^\.\s]+))?$`: `some none` for the bare keyword, `some (some key)`
for a key containing neither dots nor whitespace. -/
def envMatch (c : List Char) : Option (Option (List Char)) :=
  if c = "env".data then some none
  else if "env.".data.isPrefixOf c then
    let k := c.drop 4
    if !k.isEmpty && k.all (fun ch => ch ≠ chDot && !isPySpace ch) then
      some (some k)
    else none
  else none

/-!  ## Evaluation context and line processing -/

/-- Embedding of `EvaluationContext` (the engine back-reference is passed
separately). -/
structure Ctx where
  location : Option (List Char)
  enabled : Bool
  line : Int
deriving DecidableEq

/-- Fresh context of `TemplatingEngine.evaluate_string` /
`EvaluationContext.__init__`: the location, when given, is made
root-relative; processing starts enabled with the line counter at `-1`. -/
def mkCtx (eng : Engine) (loc : Option (List Char)) : Ctx :=
  { location := loc.map fun l => relativeToRoot l eng.root
    enabled := true
    line := -1 }

/-- Embedding of `EvaluationContext.evaluate_line`, parameterised by the slot
evaluator `f` (which receives the context whose line counter has already
advanced, exactly as `self` has in the source). -/
def evaluateLineWith (f : Ctx → List Char → Except EvalErr (List Char))
    (ctx : Ctx) (d : List Char) :
    Except EvalErr (Option (List Char) × Ctx) :=
  let ctx1 : Ctx := { ctx with line := ctx.line + 1 }
  if reDisable d then .ok (none, { ctx1 with enabled := false })
  else if reEnable d then .ok (none, { ctx1 with enabled := true })
  else if ctx1.enabled then
    if reDelete d then .ok (none, ctx1)
    else (subSlotsE (f ctx1) d).map fun r => (some r, ctx1)
  else .ok (some d, ctx1)

/-- The line loop of `TemplatingEngine.evaluate_string`: lines evaluated in
order under one threaded context, `None` results dropped, first raised error
aborting the whole call. -/
def evalLinesWith (f : Ctx → List Char → Except EvalErr (List Char)) :
    List (List Char) → Ctx → Except EvalErr (List (List Char))
  | [], _ => .ok []
  | d :: rest, ctx =>
    match evaluateLineWith f ctx d with
    | .error e => .error e
    | .ok (none, ctx') => evalLinesWith f rest ctx'
    | .ok (some r, ctx') => (evalLinesWith f rest ctx').map fun tail => r :: tail

/-- Python's `data.split("\n")`. -/
def splitNl : List Char → List (List Char)
  | [] => [[]]
  | c :: rest =>
    if c = chNl then [] :: splitNl rest
    else
      match splitNl rest with
      | h :: t => (c :: h) :: t
      | [] => [[c]]

/-- Python's `"\n".join(lines)`. -/
def joinNl : List (List Char) → List Char
  | [] => []
  | [x] => x
  | x :: xs => x ++ chNl :: joinNl xs

/-- Embedding of `TemplatingEngine.evaluate_string`, parameterised by the slot
evaluator: split on newlines, run the line loop from a fresh context, join the
surviving lines. -/
def engineEvalStringCore (eng : Engine)
    (f : Ctx → List Char → Except EvalErr (List Char))
    (data : List Char) (loc : Option (List Char)) :
    Except EvalErr (List Char) :=
  (evalLinesWith f (splitNl data) (mkCtx eng loc)).map joinNl

/-- Lookup-and-include step of `file_construct` after path resolution: a
missing regular file raises, a file passing `should_process` is recursively
evaluated with the resolved path as new location, any other file is included
verbatim. -/
def fileFetch (eng : Engine)
    (recur : Ctx → List Char → Except EvalErr (List Char))
    (p : List Char) : Except EvalErr (List Char) :=
  match findAssoc eng.fs (normalizePath p) with
  | none => .error .fileNotFound
  | some content =>
    if shouldProcess eng p then engineEvalStringCore eng recur content (some p)
    else .ok content

/-- Embedding of `EvaluationContext._evaluate_slot`: the slot's content is
tried against the construct patterns in registration order (literal,
pyproject, file, env); the first matching construct's handler runs, and no
match raises `Unknown Construct`.  `recur` is the evaluator used for the
recursive calls the handlers make (one fuel level lower). -/
def evalSlotBody (eng : Engine)
    (recur : Ctx → List Char → Except EvalErr (List Char))
    (ctx : Ctx) (content : List Char) : Except EvalErr (List Char) :=
  match literalMatch content with
  | some inner => subSlotsE (recur ctx) inner
  | none =>
    match pyprojectMatch content with
    | some none => .ok (pyStr eng.pyproject)
    | some (some path) =>
      match traverseStr eng.pyproject path with
      | .ok v => .ok (pyStr v)
      | .error e => .error (.wrappedTraverse e)
    | none =>
      if fileMatch content then
        if content.head? = some chSlash then
          fileFetch eng recur (joinPath eng.root (content.drop 1))
        else
          match ctx.location with
          | none => .error .contextError
          | some loc =>
            fileFetch eng recur (joinPath (joinPath eng.root (dirname loc)) content)
      else
        match envMatch content with
        | some none =>
          .ok (pyStr (Value.dict (eng.envVars.map fun kv => (kv.1, Value.str kv.2))))
        | some (some k) =>
          match findAssoc eng.envVars k with
          | none => .error (.envMissing k)
          | some v => .ok v
        | none => .error .unknownConstruct

/-- The fueled slot evaluator: each nesting level of slot evaluation consumes
one unit of fuel, and exhausted fuel is the interpreter's `RecursionError`. -/
def evalSlotF (eng : Engine) : Nat → Ctx → List Char → Except EvalErr (List Char)
  | 0 => fun _ _ => .error .recursionLimit
  | fuel + 1 => evalSlotBody eng (evalSlotF eng fuel)

/-- Embedding of `EvaluationContext.evaluate_string` at a given fuel. -/
def ctxEvalStringF (eng : Engine) (fuel : Nat) (ctx : Ctx) (data : List Char) :
    Except EvalErr (List Char) :=
  subSlotsE (evalSlotF eng fuel ctx) data

/-- Embedding of `TemplatingEngine.evaluate_string` at a given fuel. -/
def engineEvalStringF (eng : Engine) (fuel : Nat) (data : List Char)
    (loc : Option (List Char)) : Except EvalErr (List Char) :=
  engineEvalStringCore eng (evalSlotF eng fuel) data loc

/-!  ## Concrete fixtures used by the individual claims -/

/-- The slot text `$`-brace `c` brace. -/
def slotOf (c : List Char) : List Char := chDollar :: chLb :: c ++ [chRb]

/-- The slot content `quote X quote`. -/
def litX : List Char := [chQuote, 'X', chQuote]

/-- The slot content `quote Y quote`. -/
def litY : List Char := [chQuote, 'Y', chQuote]

/-- An engine with empty configuration and no files, enough for every
construct that does not touch the manifest, environment or file system. -/
def engSimple : Engine :=
  { root := "r".data
    includePats := []
    excludePats := []
    pyproject := .dict []
    envVars := []
    fs := [] }

/-- The cyclic-inclusion fixture of claim C2: `a.txt` includes `/b.txt`,
`b.txt` includes `/a.txt`, both passing `should_process`. -/
def engCyc : Engine :=
  { engSimple with
    includePats := ["*.txt".data]
    fs := [("r/a.txt".data, slotOf "/b.txt".data),
           ("r/b.txt".data, slotOf "/a.txt".data)] }

/-- The fixture of claim C5: only `*.py` files are processed, and the
non-matching `data.txt` contains an unexpanded slot. -/
def engC5 : Engine :=
  { engSimple with
    includePats := ["*.py".data]
    fs := [("r/data.txt".data, slotOf litX)] }

/-!  ## Claim theorems -/

/-- C6: the code designates no escape sequence.  The spec's own escape example
prefixes the slot with `!`, and the slot is expanded anyway (yielding `!X`);
a `#` prefix is likewise consumed with the slot expanded (`X`), and the bare
slot expands — no prefix makes the slot text survive literally. -/
theorem c6_no_escape_sequence :
    engineEvalStringF engSimple 3 ('!' :: slotOf litX) none = .ok ('!' :: ['X']) ∧
    engineEvalStringF engSimple 3 (chHash :: slotOf litX) none = .ok ['X'] ∧
    engineEvalStringF engSimple 3 (slotOf litX) none = .ok ['X'] := by
  refine ⟨rfl, rfl, rfl⟩

/-- C9: two slots on one line are not substituted separately; the greedy
`(.+)` of `RE_TEMPLATE_SLOT` spans from the first opening to the last closing
brace of the line, so the line `$`-brace`'X'`brace`$`-brace`'Y'`brace
evaluates to `X'`brace`$`-brace`'Y` instead of `XY`. -/
theorem c9_greedy_slot_merge :
    engineEvalStringF engSimple 3 (slotOf litX ++ slotOf litY) none
      = .ok ['X', chQuote, chRb, chDollar, chLb, chQuote, 'Y'] := by
  rfl

/-- C7 counterexample: the segment `-1` does not parse as a non-negative
integer, yet `traverse` does not fail with `InvalidIndex`: Python's `int`
accepts the sign and the negative index selects the last element. -/
theorem c7_counterexample_negative_index :
    traverseStr (Value.list [Value.str ['a'], Value.str ['b']]) ['-', '1']
      = .ok (Value.str ['b']) := by
  rfl

/-- C7 amended: `traverse` splits the path on dots and walks one segment at a
time; at a mapping an absent key fails with the `KeyError`; at a sequence a
segment that does not parse as an integer (`int(step)`, signs allowed) fails
with the `ValueError`, a parsed index `≥` the length fails with the raised
`IndexError`, and an in-range index — negative indices counting from the end —
selects the element (an index below `-len` escapes as Python's own
`IndexError`); a node that is neither mapping nor sequence with segments
remaining fails with the not-traversable `ValueError`; exhausted segments
return the final node. -/
theorem c7_traverse :
    (∀ v : Value, traverse v [] = .ok v) ∧
    (∀ (d : List (List Char × Value)) (step : List Char) (rest : List (List Char)),
      findAssocV d step = none →
        traverse (.dict d) (step :: rest) = .error .keyNotFound) ∧
    (∀ (d : List (List Char × Value)) (step : List Char) (rest : List (List Char))
        (v : Value),
      findAssocV d step = some v →
        traverse (.dict d) (step :: rest) = traverse v rest) ∧
    (∀ (l : List Value) (step : List Char) (rest : List (List Char)),
      pyInt step = none →
        traverse (.list l) (step :: rest) = .error .invalidIndex) ∧
    (∀ (l : List Value) (step : List Char) (rest : List (List Char)) (i : Int),
      pyInt step = some i → (l.length : Int) ≤ i →
        traverse (.list l) (step :: rest) = .error .indexOutOfRange) ∧
    (∀ (l : List Value) (step : List Char) (rest : List (List Char)) (i : Int)
        (v : Value),
      pyInt step = some i → i < (l.length : Int) → pyGet l i = some v →
        traverse (.list l) (step :: rest) = traverse v rest) ∧
    (∀ (l : List Value) (step : List Char) (rest : List (List Char)) (i : Int),
      pyInt step = some i → i < (l.length : Int) → pyGet l i = none →
        traverse (.list l) (step :: rest) = .error .pyIndexError) ∧
    (∀ (s step : List Char) (rest : List (List Char)),
      traverse (.str s) (step :: rest) = .error .notTraversable) ∧
    (∀ (n : Int) (step : List Char) (rest : List (List Char)),
      traverse (.intV n) (step :: rest) = .error .notTraversable) := by
  refine ⟨fun v => by cases v <;> rfl, ?_, ?_, ?_, ?_, ?_, ?_,
    fun s step rest => rfl, fun n step rest => rfl⟩
  · intro d step rest h
    simp [traverse, h]
  · intro d step rest v h
    simp [traverse, h]
  · intro l step rest h
    simp [traverse, h]
  · intro l step rest i h hle
    simp [traverse, h, hle]
  · intro l step rest i v h hlt hget
    simp [traverse, h, not_le.mpr hlt, hget]
  · intro l step rest i h hlt hget
    simp [traverse, h, not_le.mpr hlt, hget]

/-- C7 witness: the amended statement evaluated at concrete inputs. -/
theorem c7_witness :
    findAssocV [(['k'], Value.intV 3)] ['x'] = none ∧
    traverse (.dict [(['k'], Value.intV 3)]) [['x']] = .error .keyNotFound ∧
    pyInt ['z'] = none ∧
    traverse (.list [Value.intV 3]) [['z']] = .error .invalidIndex ∧
    pyInt ['5'] = some 5 ∧
    traverse (.list [Value.intV 3]) [['5']] = .error .indexOutOfRange := by
  refine ⟨rfl, c7_traverse.2.1 _ _ _ rfl, rfl, ?_, rfl, ?_⟩
  · exact (c7_traverse.2.2.2.1) _ _ _ rfl
  · exact (c7_traverse.2.2.2.2.1) _ _ _ 5 rfl (by decide)

/-- C8 counterexample: the literal pattern `^["'](.+)["']$` does not require
the two quote characters to match.  A slot whose content is wrapped in an
apostrophe on the left and a double quote on the right is still dispatched to
the literal construct and expanded. -/
theorem c8_counterexample_mismatched_quotes :
    chQuote ≠ chDquote ∧
    literalMatch [chQuote, 'X', chDquote] = some ['X'] ∧
    engineEvalStringF engSimple 3 (slotOf [chQuote, 'X', chDquote]) none
      = .ok ['X'] := by
  refine ⟨by decide, rfl, rfl⟩

/-- C8 amended: the literal construct matches a slot content wrapped in a
pair of quote characters (each independently an apostrophe or a double quote,
not necessarily matching) with at least one character between; its handler
strips the quotes and recursively evaluates the inner text as a new
slot-bearing string, so the quote-X-quote slot evaluates to `X` and the
nested form evaluates to `Y`. -/
theorem c8_literal_construct :
    (∀ (q1 q2 : Char) (mid : List Char),
      isQuoteCh q1 = true → isQuoteCh q2 = true → mid ≠ [] →
        literalMatch (q1 :: mid ++ [q2]) = some mid) ∧
    (∀ (eng : Engine) (fuel : Nat) (ctx : Ctx) (q1 q2 : Char) (mid : List Char),
      isQuoteCh q1 = true → isQuoteCh q2 = true → mid ≠ [] →
        evalSlotF eng (fuel + 1) ctx (q1 :: mid ++ [q2])
          = subSlotsE (evalSlotF eng fuel ctx) mid) ∧
    engineEvalStringF engSimple 3 (slotOf litX) none = .ok ['X'] ∧
    engineEvalStringF engSimple 3
        (slotOf (chQuote :: slotOf [chDquote, 'Y', chDquote] ++ [chQuote])) none
      = .ok ['Y'] := by
  have hlit : ∀ (q1 q2 : Char) (mid : List Char),
      isQuoteCh q1 = true → isQuoteCh q2 = true → mid ≠ [] →
        literalMatch (q1 :: mid ++ [q2]) = some mid := by
    intro q1 q2 mid h1 h2 h3
    simp [literalMatch, List.getLast?_concat, List.dropLast_concat, h1, h2, h3]
  refine ⟨hlit, ?_, rfl, rfl⟩
  intro eng fuel ctx q1 q2 mid h1 h2 h3
  show evalSlotBody eng (evalSlotF eng fuel) ctx (q1 :: mid ++ [q2]) = _
  rw [evalSlotBody, hlit q1 q2 mid h1 h2 h3]

/-- C8 witness: the amended statement applied at a concrete quote pair and
slot content. -/
theorem c8_witness :
    isQuoteCh chQuote = true ∧ (['X'] : List Char) ≠ [] ∧
    literalMatch [chQuote, 'X', chQuote] = some ['X'] ∧
    evalSlotF engSimple 1 (mkCtx engSimple none) [chQuote, 'X', chQuote]
      = subSlotsE (evalSlotF engSimple 0 (mkCtx engSimple none)) ['X'] := by
  refine ⟨rfl, by decide, ?_, ?_⟩
  · exact c8_literal_construct.1 chQuote chQuote ['X'] rfl rfl (by decide)
  · exact c8_literal_construct.2.1 engSimple 0 (mkCtx engSimple none)
      chQuote chQuote ['X'] rfl rfl (by decide)

/-- Engine configured with the spec example `include=["*.py"]`,
`exclude=[]`. -/
def engIncOnly : Engine := { engSimple with includePats := ["*.py".data] }

/-- Engine configured with the spec example `include=["*.py"]`,
`exclude=["test.py"]`. -/
def engIncExc : Engine :=
  { engSimple with
    includePats := ["*.py".data]
    excludePats := ["test.py".data] }

/-- C1: `should_process(p)` holds exactly when the root-relative form of `p`
matches some include pattern and no exclude pattern, and the spec's examples
evaluate as claimed. -/
theorem c1_should_process_iff :
    (∀ (eng : Engine) (p : List Char),
      shouldProcess eng p = true ↔
        ((∃ pat ∈ eng.includePats,
            patMatches (relativeToRoot p eng.root) pat = true) ∧
         ∀ pat ∈ eng.excludePats,
           patMatches (relativeToRoot p eng.root) pat = false)) ∧
    shouldProcess engIncOnly "test.py".data = true ∧
    shouldProcess engIncOnly "test.txt".data = false ∧
    shouldProcess engIncExc "test.py".data = false := by
  refine ⟨?_, by decide, by decide, by decide⟩
  intro eng p
  simp only [shouldProcess, matchesAny, Bool.and_eq_true, Bool.not_eq_true',
    List.any_eq_true, List.any_eq_false, Bool.not_eq_true]

/-- C4: `evaluate_line` is the claimed state machine.  A disable directive
line turns processing off and emits nothing; an enable directive line turns it
on and emits nothing; while enabled, a line carrying the delete marker emits
nothing and any other line is emitted after slot substitution; while disabled,
any non-directive line is emitted verbatim; the line counter advances in every
branch.  The concrete conjuncts tie the matchers to the claim's wording:
the directives are comment-only lines, case-insensitive, with surrounding
whitespace ignored, and the delete marker may sit anywhere on the line. -/
theorem c4_line_state_machine :
    (∀ (eng : Engine) (fuel : Nat) (ctx : Ctx) (d : List Char),
      (reDisable d = true →
        evaluateLineWith (evalSlotF eng fuel) ctx d
          = .ok (none, ⟨ctx.location, false, ctx.line + 1⟩)) ∧
      (reDisable d = false → reEnable d = true →
        evaluateLineWith (evalSlotF eng fuel) ctx d
          = .ok (none, ⟨ctx.location, true, ctx.line + 1⟩)) ∧
      (reDisable d = false → reEnable d = false → ctx.enabled = true →
        reDelete d = true →
        evaluateLineWith (evalSlotF eng fuel) ctx d
          = .ok (none, ⟨ctx.location, true, ctx.line + 1⟩)) ∧
      (reDisable d = false → reEnable d = false → ctx.enabled = true →
        reDelete d = false →
        evaluateLineWith (evalSlotF eng fuel) ctx d
          = (ctxEvalStringF eng fuel ⟨ctx.location, true, ctx.line + 1⟩ d).map
              fun r => (some r, ⟨ctx.location, true, ctx.line + 1⟩)) ∧
      (reDisable d = false → reEnable d = false → ctx.enabled = false →
        evaluateLineWith (evalSlotF eng fuel) ctx d
          = .ok (some d, ⟨ctx.location, false, ctx.line + 1⟩)) ∧
      (∀ (r : Option (List Char)) (ctx' : Ctx),
        evaluateLineWith (evalSlotF eng fuel) ctx d = .ok (r, ctx') →
          ctx'.line = ctx.line + 1)) ∧
    reDisable "# templating: off".data = true ∧
    reDisable "  #  Templating: OFF  ".data = true ∧
    reEnable "# templating: on".data = true ∧
    reEnable "# TEMPLATING: ON".data = true ∧
    reDisable "x = 1 # templating: off".data = false ∧
    reDisable "# templating: off more".data = false ∧
    reDelete "x = 1 # templating: delete".data = true ∧
    reDelete "x = 1".data = false := by
  refine ⟨?_, by decide, by decide, by decide, by decide, by decide, by decide,
    by decide, by decide⟩
  intro eng fuel ctx d
  obtain ⟨loc, en, ln⟩ := ctx
  refine ⟨?_, ?_, ?_, ?_, ?_, ?_⟩
  · intro h1
    simp [evaluateLineWith, h1]
  · intro h1 h2
    simp [evaluateLineWith, h1, h2]
  · intro h1 h2 h3 h4
    subst h3
    simp [evaluateLineWith, h1, h2, h4]
  · intro h1 h2 h3 h4
    subst h3
    simp [evaluateLineWith, h1, h2, h4, ctxEvalStringF]
  · intro h1 h2 h3
    subst h3
    simp [evaluateLineWith, h1, h2]
  · intro r ctx' h
    simp only [evaluateLineWith] at h
    split at h
    · simp only [Except.ok.injEq, Prod.mk.injEq] at h
      simp [← h.2]
    · split at h
      · simp only [Except.ok.injEq, Prod.mk.injEq] at h
        simp [← h.2]
      · split at h
        · split at h
          · simp only [Except.ok.injEq, Prod.mk.injEq] at h
            simp [← h.2]
          · rcases he : subSlotsE (evalSlotF eng fuel ⟨loc, en, ln + 1⟩) d with
              e | v
            · rw [he] at h
              simp [Except.map] at h
            · rw [he] at h
              simp only [Except.map, Except.ok.injEq, Prod.mk.injEq] at h
              simp [← h.2]
        · simp only [Except.ok.injEq, Prod.mk.injEq] at h
          simp [← h.2]

/-- C4 witness: the state machine applied to the four directive examples at a
fresh context (line counter `-1` advancing to `0`). -/
theorem c4_witness :
    reDisable "# templating: off".data = true ∧
    evaluateLineWith (evalSlotF engSimple 1) (mkCtx engSimple none)
        "# templating: off".data
      = .ok (none, ⟨none, false, 0⟩) ∧
    evaluateLineWith (evalSlotF engSimple 1) ⟨none, false, 0⟩
        "a = 1".data
      = .ok (some "a = 1".data, ⟨none, false, 1⟩) := by
  refine ⟨rfl, ?_, ?_⟩
  · exact (c4_line_state_machine.1 engSimple 1 (mkCtx engSimple none)
      "# templating: off".data).1 rfl
  · exact (c4_line_state_machine.1 engSimple 1 ⟨none, false, 0⟩
      "a = 1".data).2.2.2.2.1 rfl rfl rfl

/-!  ## Helper lemmas about whitespace runs, line splitting and scanning -/

/-- No `\s` character is the hash character. -/
lemma isPySpace_ne_hash {c : Char} (h : isPySpace c = true) : c ≠ chHash := by
  simp only [isPySpace, Bool.or_eq_true, decide_eq_true_eq] at h
  rcases h with ((((h | h) | h) | h) | h) | h <;> subst h <;> decide

/-- A leading all-whitespace run is absorbed by `dropPySpaces`. -/
lemma dropPySpaces_append (ws l : List Char) (h : ws.all isPySpace = true) :
    dropPySpaces (ws ++ l) = dropPySpaces l := by
  induction ws with
  | nil => rfl
  | cons c tl ih =>
    simp only [List.all_cons, Bool.and_eq_true] at h
    simp only [List.cons_append, dropPySpaces, List.dropWhile, h.1]
    exact ih h.2

/-- `RE_DELETE.search` ignores a leading all-whitespace run. -/
lemma reDelete_append (ws l : List Char) (h : ws.all isPySpace = true) :
    reDelete (ws ++ l) = reDelete l := by
  induction ws with
  | nil => rfl
  | cons c tl ih =>
    simp only [List.all_cons, Bool.and_eq_true] at h
    have hc : (c = chHash) = False := by
      simp [isPySpace_ne_hash h.1]
    simp only [List.cons_append, reDelete, hc, decide_False, Bool.false_and,
      Bool.false_or]
    exact ih h.2

/-- A newline-free string splits into a single line. -/
lemma splitNl_no_nl (l : List Char) (h : l.all (· ≠ chNl) = true) :
    splitNl l = [l] := by
  induction l with
  | nil => rfl
  | cons c tl ih =>
    simp only [List.all_cons, Bool.and_eq_true, decide_eq_true_eq] at h
    simp only [splitNl, if_neg h.1, ih h.2]

/-- Zero `re.sub` budget on the empty tail and any budget on the empty list
give the empty result. -/
lemma subSlotsGo_nil (f : List Char → Except EvalErr (List Char)) (n : Nat) :
    subSlotsGo f n [] = .ok [] := by
  cases n <;> rfl

/-- Anchored slot match at a hash character: the regex commits to the
`#\s*`-prefixed branch, whose greedy `\s*` ends at the first non-space. -/
lemma slotMatchAt_hash (rest : List Char) :
    slotMatchAt (chHash :: rest) =
      match dropPySpaces rest with
      | d :: e :: l2 =>
        if d = chDollar && e = chLb then matchAfterDollar l2 else none
      | _ => none := rfl

/-- Anchored directive match at a hash character: the leading `\s*` is empty
and the tail is checked case-insensitively against the keyword. -/
lemma reDirective_hash (word rest : List Char) :
    reDirective word (chHash :: rest) =
      (("templating: ".data ++ word).isPrefixOf (lowerL (dropPySpaces rest)) &&
        ((lowerL (dropPySpaces rest)).drop
          ("templating: ".data ++ word).length).all isPySpace) := rfl

/-- C10: a slot immediately preceded by a hash and optional (non-newline)
whitespace has that comment prefix consumed together with the slot — the
regex's optional `#\s*` group joins the match, so the hash and spaces are
replaced along with the slot by its value.  In particular a line made of
`#`, spaces and the quote-X-quote slot evaluates to `X`, not to `# X`. -/
theorem c10_comment_prefix_consumed :
    (∀ (eng : Engine) (fuel : Nat) (ws : List Char),
      ws.all isPySpace = true → ws.all (· ≠ chNl) = true →
        engineEvalStringF eng (fuel + 1) (chHash :: ws ++ slotOf litX) none
          = .ok ['X']) ∧
    engineEvalStringF engSimple 3 (chHash :: ' ' :: slotOf litX) none
      = .ok ['X'] ∧
    engineEvalStringF engSimple 3 (chHash :: ' ' :: slotOf litX) none
      ≠ .ok (chHash :: ' ' :: ['X']) := by
  refine ⟨?_, rfl, fun h => absurd (Except.ok.inj h) (by decide)⟩
  intro eng fuel ws h1 h2
  have hdrop : dropPySpaces (ws ++ slotOf litX) = slotOf litX := by
    rw [dropPySpaces_append ws _ h1]
    rfl
  have hline : splitNl (chHash :: ws ++ slotOf litX)
      = [chHash :: ws ++ slotOf litX] := by
    apply splitNl_no_nl
    have h3 : (slotOf litX).all (· ≠ chNl) = true := by decide
    simp only [List.all_cons, List.all_append, Bool.and_eq_true]
    exact And.intro (And.intro (by decide) h2) h3
  have hdis : reDisable (chHash :: ws ++ slotOf litX) = false := by
    show reDirective "off".data (chHash :: (ws ++ slotOf litX)) = false
    rw [reDirective_hash, hdrop]
    decide
  have hen : reEnable (chHash :: ws ++ slotOf litX) = false := by
    show reDirective "on".data (chHash :: (ws ++ slotOf litX)) = false
    rw [reDirective_hash, hdrop]
    decide
  have hdel : reDelete (chHash :: ws ++ slotOf litX) = false := by
    simp only [reDelete, List.append_eq, hdrop]
    rw [reDelete_append ws _ h1]
    decide
  have hmatch : slotMatchAt (chHash :: (ws ++ slotOf litX))
      = some (litX, []) := by
    rw [slotMatchAt_hash, hdrop]
    rfl
  have hsl : evalSlotF eng (fuel + 1)
      { location := none, enabled := true, line := -1 + 1 } litX
        = .ok ['X'] := rfl
  show (evalLinesWith (evalSlotF eng (fuel + 1))
      (splitNl (chHash :: ws ++ slotOf litX)) (mkCtx eng none)).map joinNl = _
  rw [hline]
  simp only [evalLinesWith, evaluateLineWith, hdis, hen, hdel, mkCtx,
    Bool.false_eq_true, if_false, if_true, subSlotsE, List.length_cons,
    List.append_eq, Option.map_none', subSlotsGo, hmatch, hsl]
  simp [Except.bind, Except.map, subSlotsGo_nil, joinNl]

/-- C10 witness: the general statement applied at one space of whitespace. -/
theorem c10_witness :
    ([' '] : List Char).all isPySpace = true ∧
    ([' '] : List Char).all (· ≠ chNl) = true ∧
    engineEvalStringF engSimple 1 (chHash :: [' '] ++ slotOf litX) none
      = .ok ['X'] := by
  refine ⟨by decide, by decide, ?_⟩
  exact c10_comment_prefix_consumed.1 engSimple 0 [' '] (by decide) (by decide)

/-- Dropping a prefix cannot create a slot opener. -/
lemma hasSlotOpen_dropWhile (p : Char → Bool) (l : List Char)
    (h : hasSlotOpen l = false) : hasSlotOpen (l.dropWhile p) = false := by
  induction l with
  | nil => exact h
  | cons c rest ih =>
    simp only [hasSlotOpen, Bool.or_eq_false_iff] at h
    by_cases hp : p c
    · rw [List.dropWhile_cons_of_pos hp]
      exact ih h.2
    · rw [List.dropWhile_cons_of_neg hp]
      simp [hasSlotOpen, h.1, h.2]

/-- Without a slot opener the slot regex cannot match anywhere. -/
lemma slotMatchAt_none (l : List Char) (h : hasSlotOpen l = false) :
    slotMatchAt l = none := by
  cases l with
  | nil => rfl
  | cons c rest =>
    simp only [hasSlotOpen, Bool.or_eq_false_iff] at h
    by_cases hch : c = chHash
    · have h2 : hasSlotOpen (dropPySpaces rest) = false :=
        hasSlotOpen_dropWhile isPySpace rest h.2
      simp only [slotMatchAt, hch, if_pos rfl]
      cases hd : dropPySpaces rest with
      | nil => rfl
      | cons d tl =>
        cases tl with
        | nil => rfl
        | cons e l2 =>
          rw [hd] at h2
          simp only [hasSlotOpen, Bool.or_eq_false_iff, List.head?_cons,
            Option.some.injEq] at h2
          simp [h2.1]
    · by_cases hdo : c = chDollar
      · subst hdo
        have hhead : rest.head? ≠ some chLb := by
          intro hx
          simp [hx] at h
        simp only [slotMatchAt, if_neg hch, if_pos rfl]
        cases rest with
        | nil => rfl
        | cons e l2 =>
          have he : ¬e = chLb := fun he => hhead (by simp [he])
          simp [he]
      · simp [slotMatchAt, hch, hdo]

/-- `re.sub` is the identity on a line without a slot opener. -/
lemma subSlotsGo_id (f : List Char → Except EvalErr (List Char)) :
    ∀ (n : Nat) (l : List Char), hasSlotOpen l = false →
      subSlotsGo f n l = .ok l := by
  intro n
  induction n with
  | zero => intro l _; rfl
  | succ n ih =>
    intro l h
    cases l with
    | nil => rfl
    | cons c rest =>
      have hrest : hasSlotOpen rest = false := by
        simp only [hasSlotOpen, Bool.or_eq_false_iff] at h
        exact h.2
      simp [subSlotsGo, slotMatchAt_none _ h, ih rest hrest, Except.map]

/-- Splitting on newlines never yields an empty list of lines. -/
lemma splitNl_ne_nil : ∀ l : List Char, splitNl l ≠ [] := by
  intro l
  cases l with
  | nil => simp [splitNl]
  | cons c rest =>
    simp only [splitNl]
    by_cases h : c = chNl
    · simp [h]
    · simp only [if_neg h]
      cases hs : splitNl rest with
      | nil => simp
      | cons a t => simp

/-- Rejoining the newline-split lines restores the string (the Python
round trip `"\n".join(l.split("\n")) == l`). -/
lemma joinNl_splitNl : ∀ l : List Char, joinNl (splitNl l) = l := by
  intro l
  induction l with
  | nil => rfl
  | cons c rest ih =>
    by_cases h : c = chNl
    · subst h
      simp only [splitNl, if_pos rfl]
      cases hs : splitNl rest with
      | nil => exact absurd hs (splitNl_ne_nil rest)
      | cons a t =>
        rw [hs] at ih
        simp [joinNl, ih]
    · simp only [splitNl, if_neg h]
      cases hs : splitNl rest with
      | nil => exact absurd hs (splitNl_ne_nil rest)
      | cons a t =>
        rw [hs] at ih
        cases t with
        | nil =>
          simp only [joinNl] at ih ⊢
          rw [ih]
        | cons b t2 =>
          simp only [joinNl] at ih ⊢
          simp [ih]

/-- A slot opener inside any line of the newline split is a slot opener of
the whole string (lines are contiguous substrings). -/
lemma hasSlotOpen_of_mem_splitNl :
    ∀ (s d : List Char), d ∈ splitNl s → hasSlotOpen d = true →
      hasSlotOpen s = true := by
  intro s
  induction s with
  | nil =>
    intro d hd hslot
    simp only [splitNl, List.mem_singleton] at hd
    subst hd
    simp [hasSlotOpen] at hslot
  | cons c rest ih =>
    intro d hd hslot
    by_cases h : c = chNl
    · subst h
      simp only [splitNl, eq_self_iff_true, if_true, List.mem_cons] at hd
      rcases hd with hd | hd
      · subst hd
        simp [hasSlotOpen] at hslot
      · simp only [hasSlotOpen, Bool.or_eq_true]
        right
        exact ih d hd hslot
    · simp only [splitNl, if_neg h] at hd
      cases hs : splitNl rest with
      | nil => exact absurd hs (splitNl_ne_nil rest)
      | cons a t =>
        rw [hs] at hd
        simp only [List.mem_cons] at hd
        rcases hd with hd | hd
        · subst hd
          simp only [hasSlotOpen, Bool.or_eq_true, Bool.and_eq_true,
            decide_eq_true_eq] at hslot ⊢
          rcases hslot with ⟨hc, hopen⟩ | htail
          · cases rest with
            | nil =>
              simp only [splitNl] at hs
              cases hs
              simp at hopen
            | cons r rest2 =>
              simp only [splitNl] at hs
              by_cases hr : r = chNl
              · rw [if_pos hr] at hs
                cases hs
                simp at hopen
              · rw [if_neg hr] at hs
                cases hq : splitNl rest2 with
                | nil => exact absurd hq (splitNl_ne_nil rest2)
                | cons a2 t2 =>
                  rw [hq] at hs
                  cases hs
                  left
                  refine ⟨hc, ?_⟩
                  simpa using hopen
          · right
            exact ih a (by rw [hs]; exact List.mem_cons_self a t) htail
        · simp only [hasSlotOpen, Bool.or_eq_true]
          right
          exact ih d (by rw [hs]; exact List.mem_cons_of_mem a hd) hslot

/-- The line loop is the identity on directive-free, slot-free lines while
processing is enabled. -/
lemma evalLinesWith_id (f : Ctx → List Char → Except EvalErr (List Char)) :
    ∀ (lines : List (List Char)) (ctx : Ctx), ctx.enabled = true →
      (∀ d ∈ lines, hasSlotOpen d = false ∧ reDisable d = false ∧
        reEnable d = false ∧ reDelete d = false) →
      evalLinesWith f lines ctx = .ok lines := by
  intro lines
  induction lines with
  | nil => intro ctx _ _; rfl
  | cons d rest ih =>
    intro ctx hen hall
    obtain ⟨hd, hdis, hben, hdel⟩ := hall d (List.mem_cons_self d rest)
    obtain ⟨loc, en, ln⟩ := ctx
    simp only at hen
    subst hen
    simp only [evalLinesWith, evaluateLineWith, hdis, hben, hdel,
      Bool.false_eq_true, if_false, if_true, subSlotsE,
      subSlotsGo_id _ _ d hd, Except.map]
    rw [ih ⟨loc, true, ln + 1⟩ rfl fun x hx => hall x (List.mem_cons_of_mem d hx)]

/-- C3 counterexample: the disable directive line contains no slot opener,
yet `evaluate_string` drops it, returning the empty string. -/
theorem c3_counterexample_directive_line :
    hasSlotOpen "# templating: off".data = false ∧
    engineEvalStringF engSimple 1 "# templating: off".data none = .ok [] ∧
    "# templating: off".data ≠ ([] : List Char) := by
  refine ⟨by decide, rfl, by decide⟩

/-- C3 amended: `evaluate_string` is the identity on every string that
contains no slot opener and none of whose lines is an on/off directive line
or carries the delete marker. -/
theorem c3_plain_text_identity :
    ∀ (eng : Engine) (fuel : Nat) (loc : Option (List Char)) (s : List Char),
      hasSlotOpen s = false →
      ((splitNl s).all fun d => !reDisable d && !reEnable d && !reDelete d)
        = true →
      engineEvalStringF eng fuel s loc = .ok s := by
  intro eng fuel loc s hs hdir
  show (evalLinesWith (evalSlotF eng fuel) (splitNl s) (mkCtx eng loc)).map
      joinNl = _
  rw [evalLinesWith_id _ (splitNl s) (mkCtx eng loc) rfl ?_]
  · simp [Except.map, joinNl_splitNl]
  · intro d hd
    simp only [List.all_eq_true, Bool.and_eq_true, Bool.not_eq_true'] at hdir
    obtain ⟨⟨h1, h2⟩, h3⟩ := hdir d hd
    refine ⟨?_, h1, h2, h3⟩
    by_cases hopen : hasSlotOpen d = true
    · exact absurd (hasSlotOpen_of_mem_splitNl s d hd hopen) (by simp [hs])
    · simpa using hopen

/-- C3 witness: the amended identity applied to a two-line plain string. -/
theorem c3_witness :
    hasSlotOpen "hello\nworld".data = false ∧
    ((splitNl "hello\nworld".data).all fun d =>
      !reDisable d && !reEnable d && !reDelete d) = true ∧
    engineEvalStringF engSimple 1 "hello\nworld".data none
      = .ok "hello\nworld".data := by
  refine ⟨by decide, by decide, ?_⟩
  exact c3_plain_text_identity engSimple 1 none "hello\nworld".data
    (by decide) (by decide)


/-- C5 counterexample: the file construct recursively evaluates an included
file only when the resolved path passes `should_process`; a file outside the
include patterns is inlined verbatim.  Here `/data.txt` (engine include list
`*.py`) contains a slot, the inclusion returns the slot text unexpanded, while
the recursive evaluation the claim prescribes would have produced `X`. -/
theorem c5_counterexample_verbatim_include :
    engineEvalStringF engC5 5 (slotOf "/data.txt".data) none
      = .ok (slotOf litX) ∧
    engineEvalStringF engC5 5 (slotOf litX) (some "r/data.txt".data)
      = .ok ['X'] ∧
    slotOf litX ≠ ['X'] := by
  refine ⟨rfl, rfl, by decide⟩

/-- C5 amended: for a slot content matching the file pattern, a leading slash
resolves against the engine root, a relative form resolves against the
directory of the current location and fails with the context error when there
is none; a resolved path that is not a regular file fails with the
file-not-found error; otherwise the file's content is recursively evaluated
with the resolved path as the new location provided the path passes
`should_process`, and is included verbatim otherwise. -/
theorem c5_file_construct :
    (∀ c : List Char, fileMatch c = true →
      literalMatch c = none ∧ pyprojectMatch c = none) ∧
    (∀ (eng : Engine) (fuel : Nat) (ctx : Ctx) (c : List Char),
      fileMatch c = true → c.head? = some chSlash →
        evalSlotF eng (fuel + 1) ctx c
          = fileFetch eng (evalSlotF eng fuel) (joinPath eng.root (c.drop 1))) ∧
    (∀ (eng : Engine) (fuel : Nat) (ctx : Ctx) (c : List Char),
      fileMatch c = true → c.head? ≠ some chSlash → ctx.location = none →
        evalSlotF eng (fuel + 1) ctx c = .error .contextError) ∧
    (∀ (eng : Engine) (fuel : Nat) (ctx : Ctx) (c loc : List Char),
      fileMatch c = true → c.head? ≠ some chSlash → ctx.location = some loc →
        evalSlotF eng (fuel + 1) ctx c
          = fileFetch eng (evalSlotF eng fuel)
              (joinPath (joinPath eng.root (dirname loc)) c)) ∧
    (∀ (eng : Engine) (g : Ctx → List Char → Except EvalErr (List Char))
        (p : List Char),
      findAssoc eng.fs (normalizePath p) = none →
        fileFetch eng g p = .error .fileNotFound) ∧
    (∀ (eng : Engine) (g : Ctx → List Char → Except EvalErr (List Char))
        (p content : List Char),
      findAssoc eng.fs (normalizePath p) = some content →
        shouldProcess eng p = true →
        fileFetch eng g p = engineEvalStringCore eng g content (some p)) ∧
    (∀ (eng : Engine) (g : Ctx → List Char → Except EvalErr (List Char))
        (p content : List Char),
      findAssoc eng.fs (normalizePath p) = some content →
        shouldProcess eng p = false →
        fileFetch eng g p = .ok content) := by
  have hshape : ∀ c : List Char, fileMatch c = true →
      ∃ a rest, c = a :: rest ∧ (a = chDot ∨ a = chSlash) := by
    intro c hf
    cases c with
    | nil => exact absurd hf (by simp [fileMatch])
    | cons a rest =>
      refine ⟨a, rest, rfl, ?_⟩
      by_cases ha : a = chDot
      · exact Or.inl ha
      · by_cases hb : a = chSlash
        · exact Or.inr hb
        · simp [fileMatch, ha, hb] at hf
  have hdisj : ∀ c : List Char, fileMatch c = true →
      literalMatch c = none ∧ pyprojectMatch c = none := by
    intro c hf
    obtain ⟨a, rest, rfl, ha⟩ := hshape c hf
    constructor
    · have hq : isQuoteCh a = false := by
        rcases ha with rfl | rfl <;> decide
      simp only [literalMatch]
      cases hl : rest.getLast? with
      | none => rfl
      | some qe => simp [hq]
    · have hp : ('p' == a) = false := by
        rcases ha with rfl | rfl <;> decide
      have hpre : "pyproject".data.isPrefixOf (a :: rest) = false := by
        rw [show "pyproject".data = 'p' :: "yproject".data from rfl]
        simp [List.isPrefixOf, hp]
      simp [pyprojectMatch, hpre]
  refine ⟨hdisj, ?_, ?_, ?_, ?_, ?_, ?_⟩
  · intro eng fuel ctx c hf hhead
    obtain ⟨hlit, hpy⟩ := hdisj c hf
    show evalSlotBody eng (evalSlotF eng fuel) ctx c = _
    simp [evalSlotBody, hlit, hpy, hf, hhead]
  · intro eng fuel ctx c hf hhead hloc
    obtain ⟨hlit, hpy⟩ := hdisj c hf
    show evalSlotBody eng (evalSlotF eng fuel) ctx c = _
    simp [evalSlotBody, hlit, hpy, hf, hhead, hloc]
  · intro eng fuel ctx c loc hf hhead hloc
    obtain ⟨hlit, hpy⟩ := hdisj c hf
    show evalSlotBody eng (evalSlotF eng fuel) ctx c = _
    simp [evalSlotBody, hlit, hpy, hf, hhead, hloc]
  · intro eng g p hfind
    simp [fileFetch, hfind]
  · intro eng g p content hfind hsp
    simp [fileFetch, hfind, hsp]
  · intro eng g p content hfind hsp
    simp [fileFetch, hfind, hsp]

/-- C5 witness: the amended statement applied to the absolute inclusion of
the non-processed `data.txt` fixture. -/
theorem c5_witness :
    fileMatch "/data.txt".data = true ∧
    evalSlotF engC5 1 (mkCtx engC5 none) "/data.txt".data
      = fileFetch engC5 (evalSlotF engC5 0)
          (joinPath engC5.root ("/data.txt".data.drop 1)) ∧
    findAssoc engC5.fs
        (normalizePath (joinPath engC5.root ("/data.txt".data.drop 1)))
      = some (slotOf litX) ∧
    shouldProcess engC5 (joinPath engC5.root ("/data.txt".data.drop 1))
      = false ∧
    fileFetch engC5 (evalSlotF engC5 0)
        (joinPath engC5.root ("/data.txt".data.drop 1))
      = .ok (slotOf litX) := by
  refine ⟨rfl, ?_, rfl, rfl, ?_⟩
  · exact c5_file_construct.2.1 engC5 0 (mkCtx engC5 none) "/data.txt".data
      rfl rfl
  · exact c5_file_construct.2.2.2.2.2.2 engC5 (evalSlotF engC5 0) _
      (slotOf litX) rfl rfl


/-- One `re.sub` pass over a line consisting solely of the `/a.txt` slot
invokes the callback on the content and appends nothing else. -/
lemma subSlotsE_slotA (f : List Char → Except EvalErr (List Char)) :
    subSlotsE f (slotOf "/a.txt".data)
      = (f "/a.txt".data).bind fun r => .ok (r ++ []) := rfl

/-- One `re.sub` pass over a line consisting solely of the `/b.txt` slot
invokes the callback on the content and appends nothing else. -/
lemma subSlotsE_slotB (f : List Char → Except EvalErr (List Char)) :
    subSlotsE f (slotOf "/b.txt".data)
      = (f "/b.txt".data).bind fun r => .ok (r ++ []) := rfl

/-- An `evaluate_string` call over a single enabled line whose slot
substitution hits the recursion limit propagates that failure. -/
lemma evalCore_single_line (eng : Engine)
    (g : Ctx → List Char → Except EvalErr (List Char))
    (line : List Char) (loc : Option (List Char)) (ctx1 : Ctx)
    (h1 : splitNl line = [line])
    (h2 : evaluateLineWith g (mkCtx eng loc) line
      = (subSlotsE (g ctx1) line).map fun r => (some r, ctx1))
    (h3 : subSlotsE (g ctx1) line = .error .recursionLimit) :
    engineEvalStringCore eng g line loc = .error .recursionLimit := by
  show (evalLinesWith g (splitNl line) (mkCtx eng loc)).map joinNl = _
  rw [h1]
  simp only [evalLinesWith, h2, h3]
  rfl

/-- In the cyclic fixture, evaluating either inclusion slot exhausts any
amount of fuel: the mutual inclusion recurses until the interpreter limit. -/
lemma cyc_slot : ∀ (fuel : Nat) (ctx : Ctx),
    evalSlotF engCyc fuel ctx "/a.txt".data = .error .recursionLimit ∧
    evalSlotF engCyc fuel ctx "/b.txt".data = .error .recursionLimit := by
  intro fuel
  induction fuel with
  | zero => exact fun ctx => ⟨rfl, rfl⟩
  | succ fuel ih =>
    intro ctx
    constructor
    · have e1 : evalSlotF engCyc (fuel + 1) ctx "/a.txt".data
        = engineEvalStringCore engCyc (evalSlotF engCyc fuel)
            (slotOf "/b.txt".data) (some "r/a.txt".data) := rfl
      rw [e1]
      refine evalCore_single_line engCyc _ _ _ ⟨some "a.txt".data, true, 0⟩
        rfl rfl ?_
      rw [subSlotsE_slotB, (ih ⟨some "a.txt".data, true, 0⟩).2]
      rfl
    · have e1 : evalSlotF engCyc (fuel + 1) ctx "/b.txt".data
        = engineEvalStringCore engCyc (evalSlotF engCyc fuel)
            (slotOf "/a.txt".data) (some "r/b.txt".data) := rfl
      rw [e1]
      refine evalCore_single_line engCyc _ _ _ ⟨some "b.txt".data, true, 0⟩
        rfl rfl ?_
      rw [subSlotsE_slotA, (ih ⟨some "b.txt".data, true, 0⟩).1]
      rfl

/-- C2: the cyclic inclusion `a.txt` including `b.txt` including `a.txt` has
no cycle detection in the code: for every recursion budget, evaluating
`a.txt`'s content runs the mutual inclusion until the interpreter's recursion
limit (a `RecursionError` wrapped into `EvaluationError`), and in particular
never reports a `ContextError`/cycle error. -/
theorem c2_cycle_stack_overflow :
    ∀ fuel : Nat,
      engineEvalStringF engCyc fuel (slotOf "/b.txt".data)
          (some "r/a.txt".data) = .error .recursionLimit ∧
      engineEvalStringF engCyc fuel (slotOf "/b.txt".data)
          (some "r/a.txt".data) ≠ .error .contextError := by
  intro fuel
  have h : engineEvalStringF engCyc fuel (slotOf "/b.txt".data)
      (some "r/a.txt".data) = .error .recursionLimit := by
    show engineEvalStringCore engCyc (evalSlotF engCyc fuel)
        (slotOf "/b.txt".data) (some "r/a.txt".data) = _
    refine evalCore_single_line engCyc _ _ _ ⟨some "a.txt".data, true, 0⟩
      rfl rfl ?_
    rw [subSlotsE_slotB, (cyc_slot fuel ⟨some "a.txt".data, true, 0⟩).2]
    rfl
  refine ⟨h, ?_⟩
  rw [h]
  intro hx
  cases hx

end PoetryTemplating
